import Mathlib

/-!
Shallow embedding of the async-tcp library core (TcpWriter, IoRxBuffer,
TcpClientContext, SyncBridge and the lwIP callback trampolines), translated
from the C++ sources, together with theorems settling the spec claims.

Machine integers: all counters in the source are `size_t`/`uint16_t` values
that the code never overflows on the considered traces; they are modelled as
`Nat`.  lwIP error codes (`err_t`) are modelled as `Int` with their lwIP
values (`ERR_OK = 0`, `ERR_ABRT = -13`).
-/

namespace AsyncTcp

/-- TCP_MSS from TcpClient.hpp: `#define TCP_MSS 1460`. -/
def TCP_MSS : Nat := 1460

/-- TcpWriter.hpp: `STALL_TIMEOUT_US = 2000000`. -/
def STALL_TIMEOUT_US : Nat := 2000000

/-- TcpWriter.hpp: `enum class CompletionMode : uint8_t { Acked, Enqueued }`. -/
inductive CompletionMode where
  | Acked
  | Enqueued
deriving Repr, DecidableEq

/-- State of a `TcpWriter` (TcpWriter.hpp data members).
`hasData` models `m_data != nullptr`; the timestamps model the
`absolute_time_t` members, with `none` for `nil_time`. -/
structure TxState where
  acked : Nat
  queued : Nat
  total : Nat
  hasData : Bool
  wip : Bool
  lastFree : Nat
  mode : CompletionMode
  writeStart : Option Nat
  lastProgress : Option Nat
deriving Repr, DecidableEq

/-- Observable actions of the writer: a chunk handed to
`TcpWriteHandler::create` (recording the data offset `off`, the loop local
`remaining`, the chunk size and the free-space snapshot), and an invocation
of `completeWrite`. -/
inductive TxEvent where
  | chunk (off remaining size free : Nat)
  | completed
deriving Repr, DecidableEq

namespace TcpWriter

/-- TcpWriter.cpp `completeWrite()`: release the buffer, zero all counters
and timestamps, clear the write-in-progress flag. -/
def completeWrite (st : TxState) : TxState :=
  { st with
    hasData := false
    acked := 0
    queued := 0
    total := 0
    lastFree := 0
    writeStart := none
    lastProgress := none
    wip := false }

/-- TcpWriter.hpp `remainingUnqueued()`. -/
def remainingUnqueued (st : TxState) : Nat := st.total - st.queued

/-- TcpWriter.cpp `sendNextChunk()` batching loop.  `frees` is the sequence
of `m_io._ts_availableForWrite()` snapshots the loop observes (the send
buffer is stack-owned, so the snapshots are an input of the model); the loop
also stops when no further snapshot is provided.  `now` models
`get_absolute_time()`. -/
def sendNextChunk (now : Nat) (st : TxState) : List Nat → TxState × List TxEvent
  | [] => (st, [])
  | f :: fs =>
    let remaining := remainingUnqueued st
    if remaining = 0 then (st, [])
    else
      let st1 := { st with lastFree := f }
      if f = 0 then (st1, [])
      else
        -- chunk_size = remaining; if (chunk_size > free) chunk_size = free
        let chunk := if f < remaining then f else remaining
        let off := st1.queued
        let st2 := { st1 with queued := st1.queued + chunk, lastProgress := some now }
        if st2.mode = CompletionMode.Enqueued ∧ st2.queued = st2.total then
          (completeWrite st2, [TxEvent.chunk off remaining chunk f, TxEvent.completed])
        else
          let r := sendNextChunk now st2 fs
          (r.1, TxEvent.chunk off remaining chunk f :: r.2)

/-- TcpClient write entry: `tryStartWrite` CAS (false → true) followed by
`TcpWriter::write(data, size)`, which copies the payload, resets the
counters, stamps the timestamps and runs `sendNextChunk()`.  When the CAS
fails (a write is already in progress) the writer is not entered. -/
def write (size : Nat) (now : Nat) (frees : List Nat) (st : TxState) :
    TxState × List TxEvent :=
  if st.wip then (st, [])
  else
    let st1 := { st with
      wip := true
      hasData := true
      acked := 0
      queued := 0
      total := size
      writeStart := some now
      lastProgress := some now }
    sendNextChunk now st1 frees

/-- TcpWriter.cpp `onAckReceived(ack_len)`. -/
def onAckReceived (len : Nat) (now : Nat) (frees : List Nat) (st : TxState) :
    TxState × List TxEvent :=
  if st.wip = false then (st, [])
  else
    let st1 := { st with acked := st.acked + len, lastProgress := some now }
    if st1.mode = CompletionMode.Acked ∧ st1.acked = st1.total then
      (completeWrite st1, [TxEvent.completed])
    else if 0 < remainingUnqueued st1 then
      sendNextChunk now st1 frees
    else (st1, [])

/-- TcpWriter.cpp `onError(error)`: unconditionally `completeWrite()`. -/
def onError (st : TxState) : TxState × List TxEvent :=
  (completeWrite st, [TxEvent.completed])

/-- TcpWriter.cpp `onWriteTimeout()`; `stall` is the elapsed microseconds
since `m_last_progress_time`. -/
def onWriteTimeout (stall : Nat) (st : TxState) : TxState × List TxEvent :=
  if st.wip = false ∨ st.lastProgress = none then (st, [])
  else if stall < STALL_TIMEOUT_US then (st, [])
  else (completeWrite st, [TxEvent.completed])

/-- TcpWriter constructor state: all counters zero, no buffer, no write in
progress, `nil_time` timestamps, default completion mode `Acked`. -/
def initState : TxState :=
  { acked := 0
    queued := 0
    total := 0
    hasData := false
    wip := false
    lastFree := 0
    mode := CompletionMode.Acked
    writeStart := none
    lastProgress := none }

end TcpWriter

/-- One writer operation of the claim C1 operation set, with the inputs it
consumes (free-space snapshots, clock readings, ACK length, stall time). -/
inductive TxOp where
  | write (size now : Nat) (frees : List Nat)
  | sendNext (now : Nat) (frees : List Nat)
  | ack (len now : Nat) (frees : List Nat)
  | error
  | timeout (stall : Nat)
deriving Repr, DecidableEq

/-- Dispatch one operation to the corresponding TcpWriter method. -/
def stepOp (st : TxState) : TxOp → TxState × List TxEvent
  | .write size now frees => TcpWriter.write size now frees st
  | .sendNext now frees => TcpWriter.sendNextChunk now st frees
  | .ack len now frees => TcpWriter.onAckReceived len now frees st
  | .error => TcpWriter.onError st
  | .timeout stall => TcpWriter.onWriteTimeout stall st

/-- Run a sequence of operations, collecting all events. -/
def runOps (st : TxState) : List TxOp → TxState × List TxEvent
  | [] => (st, [])
  | op :: ops =>
    let r := stepOp st op
    let rest := runOps r.1 ops
    (rest.1, r.2 ++ rest.2)

/-- All states reached along an operation sequence, initial state included. -/
def statesOf (st : TxState) : List TxOp → List TxState
  | [] => [st]
  | op :: ops => st :: statesOf (stepOp st op).1 ops

/-- The trace hypothesis of claim C1: every ACK processed while a write is in
progress covers only bytes previously queued
(`acked + ack_len ≤ queued` at the point the ACK lands). -/
def acksCovered (st : TxState) : List TxOp → Bool
  | [] => true
  | op :: ops =>
    (match op with
     | .ack len _ _ => !st.wip || decide (st.acked + len ≤ st.queued)
     | _ => true) && acksCovered (stepOp st op).1 ops

/-- Number of `completeWrite` invocations recorded in an event list. -/
def countCompleted (evs : List TxEvent) : Nat :=
  evs.countP fun e => match e with
    | TxEvent.completed => true
    | _ => false

/-! ## IoRxBuffer embedding (IoRxBuffer.cpp / IoRxBuffer.hpp) -/

/-- lwIP `ERR_OK`. -/
def ERR_OK : Int := 0

/-- lwIP `ERR_ABRT`. -/
def ERR_ABRT : Int := -13

/-- State of an `IoRxBuffer`: `pcb` models `_pcb != nullptr`, `chain` is the
owned pbuf chain from `_head` on (one list of payload bytes per pbuf
segment), `offset` is `_offset` within the head segment. -/
structure RxState where
  pcb : Bool
  chain : List (List Nat)
  offset : Nat
deriving Repr, DecidableEq

namespace IoRxBuffer

/-- Length of the head segment, `_head->len` (0 when there is no head). -/
def headLen (st : RxState) : Nat := (st.chain.headD []).length

/-- IoRxBuffer.cpp `_free()`: drop the head segment and reset the offset
(the `pbuf_ref`/`pbuf_free` pair keeps the rest of the chain alive). -/
def free (st : RxState) : RxState :=
  { st with chain := st.chain.tail, offset := 0 }

/-- IoRxBuffer.cpp `_fastPath(remaining)`: advance the offset; when the head
segment is exactly exhausted, `_free()` it.  Returns the bytes consumed. -/
def fastPath (st : RxState) (remaining : Nat) : RxState × Nat :=
  let st1 := { st with offset := st.offset + remaining }
  if st1.offset = headLen st1 then (free st1, remaining) else (st1, remaining)

/-- IoRxBuffer.cpp `_slowPath` loop over the chain components:
`slowPathGo chain offset remaining consumed` mirrors
`while (remaining > 0 && _head) { ... }`. -/
def slowPathGo : List (List Nat) → Nat → Nat → Nat → List (List Nat) × Nat × Nat
  | [], off, _, consumed => ([], off, consumed)
  | h :: t, off, remaining, consumed =>
    if remaining = 0 then (h :: t, off, consumed)
    else
      let available := h.length - off
      if remaining < available then (h :: t, off + remaining, consumed + remaining)
      else slowPathGo t 0 (remaining - available) (consumed + available)

/-- IoRxBuffer.cpp `_slowPath(remaining)`. -/
def slowPath (st : RxState) (remaining : Nat) : RxState × Nat :=
  let r := slowPathGo st.chain st.offset remaining 0
  ({ st with chain := r.1, offset := r.2.1 }, r.2.2)

/-- IoRxBuffer.cpp `_toAck(consumed)`: the successive `tcp_recved` arguments,
each `min(to_ack, 0xFFFF)`. -/
def toAck : Nat → List Nat
  | 0 => []
  | n + 1 => min (n + 1) 65535 :: toAck (n + 1 - min (n + 1) 65535)
decreasing_by omega

/-- Core of IoRxBuffer.cpp `peekConsume`: compute `available`, pick the fast
or slow path, return the new state and the consumed count. -/
def consumeCore (st : RxState) (n : Nat) : RxState × Nat :=
  let available := headLen st - st.offset
  if n ≤ available then fastPath st n else slowPath st n

/-- IoRxBuffer.cpp `peekConsume(n)`: guard empty buffer / zero request,
consume, then notify lwIP of the exact consumed count via `_toAck`
(only when `_pcb` is set and something was consumed).  Returns the new state
and the list of `tcp_recved` arguments issued. -/
def peekConsume (st : RxState) (n : Nat) : RxState × List Nat :=
  if n = 0 ∨ st.chain.isEmpty then (st, [])
  else
    let r := consumeCore st n
    (r.1, if r.1.pcb ∧ 0 < r.2 then toAck r.2 else [])

/-- IoRxBuffer.cpp `peek()`: byte at the cursor, 0 when empty. -/
def peek (st : RxState) : Nat :=
  match st.chain with
  | [] => 0
  | h :: _ => h.getD st.offset 0

/-- IoRxBuffer.cpp `peekAvailable()`: bytes readable in the head segment. -/
def peekAvailable (st : RxState) : Nat :=
  match st.chain with
  | [] => 0
  | h :: _ => h.length - st.offset

/-- IoRxBuffer.cpp `peekBuffer()`: the readable view of the head segment from
the cursor on (`nullptr` when empty is modelled as `none`). -/
def peekBuffer (st : RxState) : Option (List Nat) :=
  match st.chain with
  | [] => none
  | h :: _ => some (h.drop st.offset)

/-- Effectful rendering of `peek()`: value, post-state, `tcp_recved` calls.
The source body only reads `_head` and `_offset`. -/
def peekM (st : RxState) : Nat × RxState × List Nat :=
  match st.chain with
  | [] => (0, st, [])
  | h :: _ => (h.getD st.offset 0, st, [])

/-- Effectful rendering of `peekAvailable()`. -/
def peekAvailableM (st : RxState) : Nat × RxState × List Nat :=
  match st.chain with
  | [] => (0, st, [])
  | _ :: _ => (headLen st - st.offset, st, [])

/-- Effectful rendering of `peekBuffer()`. -/
def peekBufferM (st : RxState) : Option (List Nat) × RxState × List Nat :=
  match st.chain with
  | [] => (none, st, [])
  | h :: _ => (some (h.drop st.offset), st, [])

/-- Unconsumed byte stream of a chain from an offset into its head
segment. -/
def bytesAt : List (List Nat) → Nat → List Nat
  | [], _ => []
  | h :: t, off => h.drop off ++ t.flatten

/-- Unconsumed byte stream of the buffer: head segment past the cursor, then
the remaining segments. -/
def bytesOf (st : RxState) : List Nat := bytesAt st.chain st.offset

/-- Structural invariant of `IoRxBuffer` (spec §3 RxBuffer invariants),
together with segment non-emptiness (lwIP receive pbufs carry data). -/
def Inv (st : RxState) : Prop :=
  (∀ s ∈ st.chain, s ≠ []) ∧
  (st.chain = [] → st.offset = 0) ∧
  (st.chain ≠ [] → st.offset < headLen st)

instance (st : RxState) : Decidable (Inv st) := by
  unfold Inv; infer_instance

end IoRxBuffer

/-- Events of the lwIP receive trampoline `lwip_receive_callback`. -/
inductive RxCbEvent where
  | freedP
  | finCb
  | recvCb
  | appended
  | tookOwnership
deriving Repr, DecidableEq

/-- IoRxBuffer.cpp `lwip_receive_callback(arg, tpcb, p, err)` body after the
`arg` assert (the trampoline itself is modelled in the ClientContext
section). `tpcb` models the pcb argument stored into `_pcb`; `p` is the
delivered pbuf chain (`none` = FIN); returns the new buffer state, the
observable events, and the `err_t` result. -/
def lwipReceiveCallbackCore (st : RxState) (tpcb : Bool)
    (p : Option (List (List Nat))) (err : Int) :
    RxState × List RxCbEvent × Int :=
  let st0 := { st with pcb := tpcb }
  if err ≠ ERR_OK then
    (st0, if p.isSome then [RxCbEvent.freedP] else [], err)
  else
    match p with
    | none => (st0, [RxCbEvent.finCb], ERR_ABRT)
    | some c =>
      if st0.chain.isEmpty then
        ({ st0 with chain := c, offset := 0 },
         [RxCbEvent.tookOwnership, RxCbEvent.recvCb], ERR_OK)
      else
        ({ st0 with chain := st0.chain ++ c },
         [RxCbEvent.appended, RxCbEvent.recvCb], ERR_OK)

/-! ## TcpClientContext embedding (TcpClientContext.hpp) -/

/-- State of a `TcpClientContext` relevant to `close()`: whether `_pcb` is
non-null and the pending legacy RX chain `_rx_buf`. -/
structure CcState where
  pcb : Bool
  rxChain : List (List Nat)
deriving Repr, DecidableEq

/-- Observable stack interactions of `TcpClientContext::close()` and
related teardown code. -/
inductive CcEvent where
  | callbacksCleared
  | tcpCloseCalled
  | tcpAbortCalled
  | rxChainFreed
deriving Repr, DecidableEq

namespace TcpClientContext

/-- TcpClientContext.hpp `close()`: when `_pcb` is set, clear the five stack
callbacks, call `tcp_close`; on failure call `tcp_abort` and report
`ERR_ABRT`; finally null `_pcb`.  `closeErr` is the `err_t` that the stack
returns from `tcp_close`. -/
def close (st : CcState) (closeErr : Int) : CcState × List CcEvent × Int :=
  if st.pcb then
    if closeErr ≠ ERR_OK then
      ({ st with pcb := false },
       [CcEvent.callbacksCleared, CcEvent.tcpCloseCalled, CcEvent.tcpAbortCalled],
       ERR_ABRT)
    else
      ({ st with pcb := false },
       [CcEvent.callbacksCleared, CcEvent.tcpCloseCalled],
       ERR_OK)
  else (st, [], ERR_OK)

/-- TcpClientContext.hpp `discard_received()`: ack the whole pending chain
to the stack (when `_pcb` is set) and free it.  Returns the list of
`tcp_recved` totals issued (one unchunked call in this legacy path). -/
def discard_received (st : CcState) : CcState × List Nat :=
  if st.rxChain = [] then (st, [])
  else
    ({ st with rxChain := [] },
     if st.pcb then [(st.rxChain.map List.length).sum] else [])

end TcpClientContext

/-! ## SyncBridge embedding (src/src/SyncBridge.cpp and
lib/async-bridge/src/platform/pico/SyncBridge.cpp) -/

/-- Bridge state: whether the constructor has run
(`recursive_mutex_init(&m_execution_mutex)`).  The source has no other
per-bridge initialisation state. -/
structure SyncBridgeState where
  mutexInitialized : Bool
deriving Repr, DecidableEq

/-- Observable actions of one `SyncBridge::execute` call, in order. -/
inductive SbEvent where
  | lockAcquired
  | workerAdded
  | workPending
  | dispatched
  | semaphoreReleased
  | workerRemoved
  | lockReleased
deriving Repr, DecidableEq

namespace SyncBridge

/-- SyncBridge.cpp `execute(payload)`: acquire the per-instance mutex, build
the semaphore / ExecutionContext / worker, add the worker and mark it
pending, block until `sync_handler` has run
`doExecute` (= `onExecute`) in the target context and released the
semaphore, then remove the worker, release the mutex and return the
handler result.  There is no initialisation check anywhere on this path. -/
def execute {α : Type} (st : SyncBridgeState) (onExecute : α → Nat)
    (payload : α) : Nat × List SbEvent :=
  (onExecute payload,
   [SbEvent.lockAcquired, SbEvent.workerAdded, SbEvent.workPending,
    SbEvent.dispatched, SbEvent.semaphoreReleased, SbEvent.workerRemoved,
    SbEvent.lockReleased])

end SyncBridge

/-! ## lwIP callback trampolines (TcpClientContext.hpp `_s_*` and
IoRxBuffer.cpp `lwip_receive_callback`), as registered per PCB by the
TcpClientContext constructor and `connect()` -/

/-- Client-side state a trampoline can touch: the context pcb, the
IoRxBuffer, and whether the optional `_ackCb` / `_pollCb` slots are set. -/
structure ClientCtx where
  pcb : Bool
  rx : RxState
  hasAckCb : Bool
  hasPollCb : Bool
deriving Repr, DecidableEq

/-- Result of a trampoline invocation: a returned `err_t`, a `void` return,
or a failed `assert`. -/
inductive CbOut where
  | ret (e : Int)
  | retVoid
  | assertFailed
deriving Repr, DecidableEq

/-- Client-visible actions a trampoline can perform. -/
inductive CbAct where
  | connectCb
  | errorCb (e : Int)
  | pcbCleared
  | ackCb (len : Nat)
  | pollCb
  | rxEvt (e : RxCbEvent)
deriving Repr, DecidableEq

namespace Trampolines

/-- TcpClientContext.hpp `_s_connected`: null `arg` returns `ERR_OK`;
otherwise `_connected` runs the connect callback and returns `ERR_OK`. -/
def sConnected (arg : Option ClientCtx) (err : Int) :
    Option ClientCtx × List CbAct × CbOut :=
  match arg with
  | none => (none, [], CbOut.ret ERR_OK)
  | some c =>
    let _ := err
    (some c, [CbAct.connectCb], CbOut.ret ERR_OK)

/-- TcpClientContext.hpp `_s_acked`: null `arg` returns `ERR_OK`; otherwise
`_acked` invokes `_ackCb` when registered and returns `ERR_OK`. -/
def sAcked (arg : Option ClientCtx) (len : Nat) :
    Option ClientCtx × List CbAct × CbOut :=
  match arg with
  | none => (none, [], CbOut.ret ERR_OK)
  | some c =>
    (some c, if c.hasAckCb then [CbAct.ackCb len] else [], CbOut.ret ERR_OK)

/-- TcpClientContext.hpp `_s_error`: null `arg` is ignored (void return);
otherwise `_error` nulls `_pcb` and invokes the error callback. -/
def sError (arg : Option ClientCtx) (err : Int) :
    Option ClientCtx × List CbAct × CbOut :=
  match arg with
  | none => (none, [], CbOut.retVoid)
  | some c =>
    (some { c with pcb := false },
     [CbAct.pcbCleared, CbAct.errorCb err], CbOut.retVoid)

/-- TcpClientContext.hpp `_s_poll`: null `arg` returns `ERR_OK`; otherwise
`_poll` invokes `_pollCb` when registered and returns `ERR_OK`. -/
def sPoll (arg : Option ClientCtx) :
    Option ClientCtx × List CbAct × CbOut :=
  match arg with
  | none => (none, [], CbOut.ret ERR_OK)
  | some c =>
    (some c, if c.hasPollCb then [CbAct.pollCb] else [], CbOut.ret ERR_OK)

/-- IoRxBuffer.cpp `lwip_receive_callback`, the receive callback the
TcpClientContext constructor registers with `tcp_recv`: its first statement
is `assert(arg)` — a null `arg` fails the assert, there is no ok-return
path for it.  Non-null `arg` runs the buffer logic of
`lwipReceiveCallbackCore`. -/
def recvTrampoline (arg : Option ClientCtx) (tpcb : Bool)
    (p : Option (List (List Nat))) (err : Int) :
    Option ClientCtx × List CbAct × CbOut :=
  match arg with
  | none => (none, [], CbOut.assertFailed)
  | some c =>
    let r := lwipReceiveCallbackCore c.rx tpcb p err
    (some { c with rx := r.1 }, r.2.1.map CbAct.rxEvt, CbOut.ret r.2.2)

end Trampolines

/-! ## Trace harnesses and invariants used by the claims -/

/-- Counter invariant of claim C1: `acked ≤ queued ≤ total`, and a writer
that is not in progress has all counters at zero. -/
def TxInv (st : TxState) : Prop :=
  st.acked ≤ st.queued ∧ st.queued ≤ st.total ∧
  (st.wip = false → st.acked = 0 ∧ st.queued = 0 ∧ st.total = 0)

instance (st : TxState) : Decidable (TxInv st) := by
  unfold TxInv; infer_instance

/-- One `onAckReceived` call with its inputs (ACK length, clock reading,
free-space snapshots for the chunk continuation). -/
structure AckCall where
  len : Nat
  now : Nat
  frees : List Nat
deriving Repr, DecidableEq

/-- Render a list of ACK calls as writer operations. -/
def ackOps (calls : List AckCall) : List TxOp :=
  calls.map fun c => TxOp.ack c.len c.now c.frees

/-- Run a sequence of `peekConsume` calls against an `IoRxBuffer`.  Returns
the final state, the concatenated `tcp_recved` arguments, and the
concatenation of the byte chunks surrendered by the calls (the next
`nᵢ` unconsumed bytes at each step, which is what the application reads via
the peek interface before consuming). -/
def runConsumes (st : RxState) : List Nat → RxState × List Nat × List Nat
  | [] => (st, [], [])
  | n :: ns =>
    let taken := (IoRxBuffer.bytesOf st).take n
    let r := IoRxBuffer.peekConsume st n
    let rest := runConsumes r.1 ns
    (rest.1, r.2 ++ rest.2.1, taken ++ rest.2.2)

/-! ## TcpWriter lemmas -/

theorem txInv_completeWrite (st : TxState) : TxInv (TcpWriter.completeWrite st) := by
  simp [TxInv, TcpWriter.completeWrite]

theorem sendNextChunk_inv (now : Nat) (frees : List Nat) (st : TxState)
    (h : TxInv st) : TxInv (TcpWriter.sendNextChunk now st frees).1 := by
  induction frees generalizing st with
  | nil => simpa [TcpWriter.sendNextChunk] using h
  | cons f fs ih =>
    obtain ⟨ha, hq, hw⟩ := h
    simp only [TcpWriter.sendNextChunk, TcpWriter.remainingUnqueued]
    split_ifs with h1 h2 h3 h4 h5
    · exact ⟨ha, hq, hw⟩
    · exact ⟨ha, hq, hw⟩
    · exact txInv_completeWrite _
    · dsimp only
      apply ih
      refine ⟨?_, ?_, ?_⟩ <;> dsimp only
      · omega
      · omega
      · intro hwf
        rcases hw hwf with ⟨h7, h8, h9⟩
        omega
    · exact txInv_completeWrite _
    · dsimp only
      apply ih
      refine ⟨?_, ?_, ?_⟩ <;> dsimp only
      · omega
      · omega
      · intro hwf
        rcases hw hwf with ⟨h7, h8, h9⟩
        omega

theorem stepOp_inv (st : TxState) (op : TxOp) (h : TxInv st)
    (hack : ∀ len now frees, op = TxOp.ack len now frees → st.wip = true →
      st.acked + len ≤ st.queued) :
    TxInv (stepOp st op).1 := by
  cases op with
  | write size now frees =>
    simp only [stepOp, TcpWriter.write]
    split_ifs with h1
    · exact h
    · exact sendNextChunk_inv _ _ _ (by simp [TxInv])
  | sendNext now frees => exact sendNextChunk_inv _ _ _ h
  | ack len now frees =>
    simp only [stepOp, TcpWriter.onAckReceived]
    split_ifs with h1 h2 h3
    · exact h
    · exact txInv_completeWrite _
    · apply sendNextChunk_inv
      have hw : st.wip = true := by
        cases hb : st.wip
        · exact absurd hb h1
        · rfl
      have hl := hack len now frees rfl hw
      obtain ⟨ha, hq, _⟩ := h
      exact ⟨by simpa using hl, by simpa using hq, by simp [hw]⟩
    · have hw : st.wip = true := by
        cases hb : st.wip
        · exact absurd hb h1
        · rfl
      have hl := hack len now frees rfl hw
      obtain ⟨ha, hq, _⟩ := h
      exact ⟨by simpa using hl, by simpa using hq, by simp [hw]⟩
  | error => exact txInv_completeWrite _
  | timeout stall =>
    simp only [stepOp, TcpWriter.onWriteTimeout]
    split_ifs with h1 h2
    · exact h
    · exact h
    · exact txInv_completeWrite _

theorem statesOf_inv (ops : List TxOp) (st : TxState) (h : TxInv st)
    (hv : acksCovered st ops = true) : ∀ s ∈ statesOf st ops, TxInv s := by
  induction ops generalizing st with
  | nil =>
    intro s hs
    simp only [statesOf, List.mem_singleton] at hs
    exact hs ▸ h
  | cons op ops ih =>
    intro s hs
    simp only [acksCovered, Bool.and_eq_true] at hv
    simp only [statesOf, List.mem_cons] at hs
    have hstep : TxInv (stepOp st op).1 := by
      apply stepOp_inv st op h
      intro len now frees heq hw
      subst heq
      simp only [hw, Bool.not_true, Bool.false_or, decide_eq_true_eq] at hv
      exact hv.1
    rcases hs with rfl | hs
    · exact h
    · exact ih (stepOp st op).1 hstep hv.2 s hs

/-- Claim C1: along every TcpWriter operation sequence in which the stack
acknowledges only bytes previously queued, every reached state satisfies
`0 ≤ acked ≤ queued ≤ total`, a writer not in progress has all three
counters at zero, and `completeWrite` (the single completion routine run on
the ACK-completion, enqueue-completion, error and stall-timeout paths)
resets `acked`, `queued`, `total` to 0 and clears the in-progress flag. -/
theorem tcpWriter_counters_invariant (ops : List TxOp)
    (hv : acksCovered TcpWriter.initState ops = true) :
    (∀ st ∈ statesOf TcpWriter.initState ops,
        st.acked ≤ st.queued ∧ st.queued ≤ st.total ∧
        (st.wip = false → st.acked = 0 ∧ st.queued = 0 ∧ st.total = 0)) ∧
    (∀ st : TxState,
        (TcpWriter.completeWrite st).acked = 0 ∧
        (TcpWriter.completeWrite st).queued = 0 ∧
        (TcpWriter.completeWrite st).total = 0 ∧
        (TcpWriter.completeWrite st).wip = false) := by
  constructor
  · intro s hs
    exact statesOf_inv ops TcpWriter.initState (by simp [TxInv, TcpWriter.initState]) hv s hs
  · intro st
    simp [TcpWriter.completeWrite]

/-- Witness for C1 on a concrete trace: a 5-byte write fully queued in one
chunk, then fully acknowledged. -/
theorem tcpWriter_counters_invariant_witness :
    acksCovered TcpWriter.initState [TxOp.write 5 0 [10], TxOp.ack 5 1 []] = true ∧
    ((∀ st ∈ statesOf TcpWriter.initState [TxOp.write 5 0 [10], TxOp.ack 5 1 []],
        st.acked ≤ st.queued ∧ st.queued ≤ st.total ∧
        (st.wip = false → st.acked = 0 ∧ st.queued = 0 ∧ st.total = 0)) ∧
     (∀ st : TxState,
        (TcpWriter.completeWrite st).acked = 0 ∧
        (TcpWriter.completeWrite st).queued = 0 ∧
        (TcpWriter.completeWrite st).total = 0 ∧
        (TcpWriter.completeWrite st).wip = false)) :=
  ⟨by decide, tcpWriter_counters_invariant [TxOp.write 5 0 [10], TxOp.ack 5 1 []] (by decide)⟩

/-! ## Acked-mode completion lemmas -/

theorem countCompleted_append (a b : List TxEvent) :
    countCompleted (a ++ b) = countCompleted a + countCompleted b := by
  simp [countCompleted, List.countP_append]

theorem sendNextChunk_acked (now : Nat) (frees : List Nat) (st : TxState)
    (hm : st.mode = CompletionMode.Acked) :
    (TcpWriter.sendNextChunk now st frees).1.acked = st.acked ∧
    (TcpWriter.sendNextChunk now st frees).1.total = st.total ∧
    (TcpWriter.sendNextChunk now st frees).1.wip = st.wip ∧
    (TcpWriter.sendNextChunk now st frees).1.mode = CompletionMode.Acked ∧
    countCompleted (TcpWriter.sendNextChunk now st frees).2 = 0 := by
  induction frees generalizing st with
  | nil => simp [TcpWriter.sendNextChunk, hm, countCompleted]
  | cons f fs ih =>
    simp only [TcpWriter.sendNextChunk, TcpWriter.remainingUnqueued]
    split_ifs with h1 h2 h3 h4 h5
    · simp [hm, countCompleted]
    · simp [hm, countCompleted]
    · simp [hm] at h4
    · have h6 := ih { st with
          lastFree := f
          queued := st.queued + f
          lastProgress := some now } (by simpa using hm)
      dsimp only at h6 ⊢
      refine ⟨h6.1, h6.2.1, h6.2.2.1, h6.2.2.2.1, ?_⟩
      simpa [countCompleted, List.countP_cons] using h6.2.2.2.2
    · simp [hm] at h5
    · have h6 := ih { st with
          lastFree := f
          queued := st.queued + (st.total - st.queued)
          lastProgress := some now } (by simpa using hm)
      dsimp only at h6 ⊢
      refine ⟨h6.1, h6.2.1, h6.2.2.1, h6.2.2.2.1, ?_⟩
      simpa [countCompleted, List.countP_cons] using h6.2.2.2.2

theorem onAck_drop (len now : Nat) (frees : List Nat) (st : TxState)
    (hw : st.wip = false) :
    TcpWriter.onAckReceived len now frees st = (st, []) := by
  simp [TcpWriter.onAckReceived, hw]

theorem runOps_acks_drop (calls : List AckCall) (st : TxState)
    (hw : st.wip = false) : runOps st (ackOps calls) = (st, []) := by
  induction calls generalizing st with
  | nil => simp [runOps, ackOps]
  | cons c cs ih =>
    simp only [ackOps, List.map_cons, runOps, stepOp,
      onAck_drop c.len c.now c.frees st hw]
    simpa [ackOps] using ih st hw

theorem onAck_step (len now : Nat) (frees : List Nat) (st : TxState)
    (hw : st.wip = true) (hm : st.mode = CompletionMode.Acked) :
    (st.acked + len = st.total →
      TcpWriter.onAckReceived len now frees st =
        (TcpWriter.completeWrite st, [TxEvent.completed])) ∧
    (st.acked + len ≠ st.total →
      (TcpWriter.onAckReceived len now frees st).1.acked = st.acked + len ∧
      (TcpWriter.onAckReceived len now frees st).1.total = st.total ∧
      (TcpWriter.onAckReceived len now frees st).1.wip = true ∧
      (TcpWriter.onAckReceived len now frees st).1.mode = CompletionMode.Acked ∧
      countCompleted (TcpWriter.onAckReceived len now frees st).2 = 0) := by
  constructor
  · intro hc
    simp only [TcpWriter.onAckReceived]
    rw [if_neg (by simp [hw])]
    rw [if_pos (by exact ⟨by simpa using hm, by simpa using hc⟩)]
    rfl
  · intro hc
    simp only [TcpWriter.onAckReceived]
    rw [if_neg (by simp [hw])]
    rw [if_neg (fun hx => hc (by simpa using hx.2))]
    split_ifs with h7
    · have hsn := sendNextChunk_acked now frees
        { st with acked := st.acked + len, lastProgress := some now }
        (by simpa using hm)
      exact ⟨by simpa using hsn.1, by simpa using hsn.2.1,
        by rw [hsn.2.2.1]; simpa using hw, hsn.2.2.2.1, hsn.2.2.2.2⟩
    · exact ⟨by simp, by simp, by simpa using hw, by simpa using hm,
        by simp [countCompleted]⟩

theorem ackRun_complete (calls : List AckCall) (st : TxState)
    (hw : st.wip = true) (hm : st.mode = CompletionMode.Acked)
    (hsum : st.acked + (calls.map AckCall.len).sum = st.total)
    (hlt : st.acked < st.total) :
    countCompleted (runOps st (ackOps calls)).2 = 1 ∧
    (runOps st (ackOps calls)).1.wip = false ∧
    (runOps st (ackOps calls)).1.acked = 0 ∧
    (runOps st (ackOps calls)).1.queued = 0 ∧
    (runOps st (ackOps calls)).1.total = 0 := by
  induction calls generalizing st with
  | nil => simp at hsum; omega
  | cons c cs ih =>
    have hstep := onAck_step c.len c.now c.frees st hw hm
    simp only [ackOps, List.map_cons, runOps, stepOp]
    by_cases hc : st.acked + c.len = st.total
    · rw [hstep.1 hc]
      have hdrop := runOps_acks_drop cs (TcpWriter.completeWrite st)
        (by simp [TcpWriter.completeWrite])
      simp only [ackOps] at hdrop
      simp only [TcpWriter.completeWrite] at hdrop ⊢
      simp [hdrop, countCompleted]
    · have hp := hstep.2 hc
      have hsum2 : (TcpWriter.onAckReceived c.len c.now c.frees st).1.acked +
          (cs.map AckCall.len).sum =
          (TcpWriter.onAckReceived c.len c.now c.frees st).1.total := by
        rw [hp.1, hp.2.1]
        simp [List.sum_cons] at hsum
        omega
      have hlt2 : (TcpWriter.onAckReceived c.len c.now c.frees st).1.acked <
          (TcpWriter.onAckReceived c.len c.now c.frees st).1.total := by
        rw [hp.1, hp.2.1]
        simp [List.sum_cons] at hsum
        omega
      have hih := ih (TcpWriter.onAckReceived c.len c.now c.frees st).1
        hp.2.2.1 hp.2.2.2.1 hsum2 hlt2
      simp only [ackOps] at hih
      refine ⟨?_, hih.2.1, hih.2.2.1, hih.2.2.2.1, hih.2.2.2.2⟩
      rw [countCompleted_append, hp.2.2.2.2, hih.1]

theorem ackRun_low (calls : List AckCall) (st : TxState)
    (hw : st.wip = true) (hm : st.mode = CompletionMode.Acked)
    (hsum : st.acked + (calls.map AckCall.len).sum < st.total) :
    countCompleted (runOps st (ackOps calls)).2 = 0 ∧
    (runOps st (ackOps calls)).1.wip = true := by
  induction calls generalizing st with
  | nil => simp [runOps, ackOps, countCompleted, hw]
  | cons c cs ih =>
    have hstep := onAck_step c.len c.now c.frees st hw hm
    simp only [ackOps, List.map_cons, runOps, stepOp]
    have hc : st.acked + c.len ≠ st.total := by
      simp [List.sum_cons] at hsum
      omega
    have hp := hstep.2 hc
    have hsum2 : (TcpWriter.onAckReceived c.len c.now c.frees st).1.acked +
        (cs.map AckCall.len).sum <
        (TcpWriter.onAckReceived c.len c.now c.frees st).1.total := by
      rw [hp.1, hp.2.1]
      simp [List.sum_cons] at hsum
      omega
    have hih := ih (TcpWriter.onAckReceived c.len c.now c.frees st).1
      hp.2.2.1 hp.2.2.2.1 hsum2
    simp only [ackOps] at hih
    refine ⟨?_, hih.2⟩
    rw [countCompleted_append, hp.2.2.2.2, hih.1]

/-- Claim C2: for a write in progress in Acked completion mode with total
`T > 0` and no bytes acknowledged yet, any sequence of `onAckReceived` calls
whose lengths sum to `T` triggers `completeWrite` exactly once, leaving the
writer idle with zeroed counters; every proper-prefix of the ACK sequence
whose lengths sum below `T` triggers no completion (so the completion
happens on the ACK that brings `acked` to `T`); and an `onAckReceived`
arriving when no write is in progress leaves the writer state unchanged and
produces no event. -/
theorem tcpWriter_acked_completes_once (st : TxState) (calls : List AckCall)
    (hw : st.wip = true) (hm : st.mode = CompletionMode.Acked)
    (ha : st.acked = 0) (ht : 0 < st.total)
    (hsum : (calls.map AckCall.len).sum = st.total) :
    (countCompleted (runOps st (ackOps calls)).2 = 1 ∧
     (runOps st (ackOps calls)).1.wip = false ∧
     (runOps st (ackOps calls)).1.acked = 0 ∧
     (runOps st (ackOps calls)).1.queued = 0 ∧
     (runOps st (ackOps calls)).1.total = 0) ∧
    (∀ k, (((calls.take k).map AckCall.len).sum < st.total →
      countCompleted (runOps st (ackOps (calls.take k))).2 = 0)) ∧
    (∀ (s : TxState) (c : AckCall), s.wip = false →
      TcpWriter.onAckReceived c.len c.now c.frees s = (s, [])) := by
  refine ⟨?_, ?_, ?_⟩
  · exact ackRun_complete calls st hw hm (by omega) (by omega)
  · intro k hk
    exact (ackRun_low (calls.take k) st hw hm (by omega)).1
  · intro s c hws
    exact onAck_drop c.len c.now c.frees s hws

/-- Witness for C2: total 5, ACK sequence 2 then 3. -/
theorem tcpWriter_acked_completes_once_witness :
    (({ acked := 0, queued := 0, total := 5, hasData := true, wip := true,
        lastFree := 0, mode := CompletionMode.Acked, writeStart := some 0,
        lastProgress := some 0 } : TxState).wip = true) ∧
    (countCompleted (runOps
      { acked := 0, queued := 0, total := 5, hasData := true, wip := true,
        lastFree := 0, mode := CompletionMode.Acked, writeStart := some 0,
        lastProgress := some 0 }
      (ackOps [⟨2, 1, []⟩, ⟨3, 2, []⟩])).2 = 1 ∧
     (runOps
      { acked := 0, queued := 0, total := 5, hasData := true, wip := true,
        lastFree := 0, mode := CompletionMode.Acked, writeStart := some 0,
        lastProgress := some 0 }
      (ackOps [⟨2, 1, []⟩, ⟨3, 2, []⟩])).1.wip = false ∧
     (runOps
      { acked := 0, queued := 0, total := 5, hasData := true, wip := true,
        lastFree := 0, mode := CompletionMode.Acked, writeStart := some 0,
        lastProgress := some 0 }
      (ackOps [⟨2, 1, []⟩, ⟨3, 2, []⟩])).1.acked = 0 ∧
     (runOps
      { acked := 0, queued := 0, total := 5, hasData := true, wip := true,
        lastFree := 0, mode := CompletionMode.Acked, writeStart := some 0,
        lastProgress := some 0 }
      (ackOps [⟨2, 1, []⟩, ⟨3, 2, []⟩])).1.queued = 0 ∧
     (runOps
      { acked := 0, queued := 0, total := 5, hasData := true, wip := true,
        lastFree := 0, mode := CompletionMode.Acked, writeStart := some 0,
        lastProgress := some 0 }
      (ackOps [⟨2, 1, []⟩, ⟨3, 2, []⟩])).1.total = 0) :=
  ⟨rfl,
   (tcpWriter_acked_completes_once
     { acked := 0, queued := 0, total := 5, hasData := true, wip := true,
       lastFree := 0, mode := CompletionMode.Acked, writeStart := some 0,
       lastProgress := some 0 }
     [⟨2, 1, []⟩, ⟨3, 2, []⟩] rfl rfl rfl (by decide) (by decide)).1⟩

/-! ## Chunk sizing (claim C3) -/

/-- Counterexample to claim C3 as stated: entering a 2000-byte write with a
free send-buffer snapshot of 2000 queues one chunk of 2000 bytes; the claim
would require min(remaining, free, MSS) = 1460, and the queued chunk
exceeds the MSS. -/
theorem sendNextChunk_no_mss_clamp :
    (stepOp TcpWriter.initState (TxOp.write 2000 0 [2000])).2 =
      [TxEvent.chunk 0 2000 2000 2000] ∧
    2000 ≠ min (min 2000 2000) TCP_MSS ∧
    TCP_MSS < 2000 := by
  refine ⟨by decide, by decide, by decide⟩

/-- Claim C3 (amended): every chunk queued by `sendNextChunk` has size
exactly `min(remaining unqueued bytes, free send-buffer snapshot)` — the
writer applies no MSS clamp.  Each recorded chunk event carries the loop
locals: `rem` equals the writer total minus the chunk data offset, the
size is `min rem free`, and both the size and the observed free snapshot
are positive. -/
theorem sendNextChunk_chunk_sizes (now : Nat) (frees : List Nat)
    (st : TxState) (off rem size f : Nat)
    (hmem : TxEvent.chunk off rem size f ∈
      (TcpWriter.sendNextChunk now st frees).2) :
    size = min rem f ∧ 0 < size ∧ 0 < f ∧ rem = st.total - off := by
  induction frees generalizing st with
  | nil => simp [TcpWriter.sendNextChunk] at hmem
  | cons fr fs ih =>
    simp only [TcpWriter.sendNextChunk, TcpWriter.remainingUnqueued] at hmem
    split_ifs at hmem with h1 h2 h3 h4 h5
    · simp at hmem
    · simp at hmem
    · simp only [List.mem_cons, List.mem_singleton] at hmem
      rcases hmem with hev | hev
      · rw [TxEvent.chunk.injEq] at hev
        obtain ⟨rfl, rfl, rfl, rfl⟩ := hev
        refine ⟨?_, by omega, by omega, rfl⟩
        omega
      · exact absurd hev (by simp)
    · simp only [List.mem_cons] at hmem
      rcases hmem with hev | hev
      · rw [TxEvent.chunk.injEq] at hev
        obtain ⟨rfl, rfl, rfl, rfl⟩ := hev
        refine ⟨?_, by omega, by omega, rfl⟩
        omega
      · have h6 := ih { st with
            lastFree := fr
            queued := st.queued + fr
            lastProgress := some now } hev
        dsimp only at h6
        exact h6
    · simp only [List.mem_cons, List.mem_singleton] at hmem
      rcases hmem with hev | hev
      · rw [TxEvent.chunk.injEq] at hev
        obtain ⟨rfl, rfl, rfl, rfl⟩ := hev
        refine ⟨?_, by omega, by omega, rfl⟩
        omega
      · exact absurd hev (by simp)
    · simp only [List.mem_cons] at hmem
      rcases hmem with hev | hev
      · rw [TxEvent.chunk.injEq] at hev
        obtain ⟨rfl, rfl, rfl, rfl⟩ := hev
        refine ⟨?_, by omega, by omega, rfl⟩
        omega
      · have h6 := ih { st with
            lastFree := fr
            queued := st.queued + (st.total - st.queued)
            lastProgress := some now } hev
        dsimp only at h6
        exact h6

/-- Witness for the amended C3 on a concrete chunk event: a 3000-byte write
with free snapshots 1000 then 2000 queues chunks of 1000 and 2000. -/
theorem sendNextChunk_chunk_sizes_witness :
    TxEvent.chunk 1000 2000 2000 2000 ∈
      (TcpWriter.sendNextChunk 0
        { acked := 0, queued := 0, total := 3000, hasData := true,
          wip := true, lastFree := 0, mode := CompletionMode.Acked,
          writeStart := some 0, lastProgress := some 0 } [1000, 2000]).2 ∧
    (2000 = min 2000 2000 ∧ 0 < 2000 ∧ 0 < 2000 ∧ 2000 = 3000 - 1000) :=
  ⟨by decide,
   sendNextChunk_chunk_sizes 0 [1000, 2000]
     { acked := 0, queued := 0, total := 3000, hasData := true,
       wip := true, lastFree := 0, mode := CompletionMode.Acked,
       writeStart := some 0, lastProgress := some 0 }
     1000 2000 2000 2000 (by decide)⟩

/-! ## Receive trampoline behaviour (claim C4) -/

/-- Claim C4: the receive trampoline body frees a non-null `p` and
propagates the error when `err != ERR_OK`; signals FIN and returns
`ERR_ABRT` when `p` is null; otherwise appends to an existing chain or
takes ownership with offset 0, notifies the data-arrived callback and
returns `ERR_OK`. -/
theorem lwip_receive_callback_spec (st : RxState) (tpcb : Bool)
    (p : Option (List (List Nat))) (err : Int) :
    (err ≠ ERR_OK →
      (lwipReceiveCallbackCore st tpcb p err).2.2 = err ∧
      (lwipReceiveCallbackCore st tpcb p err).2.1 =
        (if p.isSome then [RxCbEvent.freedP] else []) ∧
      (lwipReceiveCallbackCore st tpcb p err).1 = { st with pcb := tpcb }) ∧
    (err = ERR_OK → p = none →
      (lwipReceiveCallbackCore st tpcb p err).2.2 = ERR_ABRT ∧
      (lwipReceiveCallbackCore st tpcb p err).2.1 = [RxCbEvent.finCb]) ∧
    (∀ c, err = ERR_OK → p = some c →
      (lwipReceiveCallbackCore st tpcb p err).2.2 = ERR_OK ∧
      RxCbEvent.recvCb ∈ (lwipReceiveCallbackCore st tpcb p err).2.1 ∧
      (st.chain = [] →
        (lwipReceiveCallbackCore st tpcb p err).1.chain = c ∧
        (lwipReceiveCallbackCore st tpcb p err).1.offset = 0 ∧
        RxCbEvent.tookOwnership ∈ (lwipReceiveCallbackCore st tpcb p err).2.1) ∧
      (st.chain ≠ [] →
        (lwipReceiveCallbackCore st tpcb p err).1.chain = st.chain ++ c ∧
        (lwipReceiveCallbackCore st tpcb p err).1.offset = st.offset ∧
        RxCbEvent.appended ∈ (lwipReceiveCallbackCore st tpcb p err).2.1)) := by
  refine ⟨?_, ?_, ?_⟩
  · intro he
    simp [lwipReceiveCallbackCore, he]
  · intro he hp
    subst hp
    simp [lwipReceiveCallbackCore, he]
  · intro c he hp
    subst hp
    subst he
    by_cases hch : st.chain = []
    · simp [lwipReceiveCallbackCore, hch]
    · simp [lwipReceiveCallbackCore, hch, List.isEmpty_iff]

/-- Witness for C4 at three concrete inputs, one per branch. -/
theorem lwip_receive_callback_spec_witness :
    ((-1 : Int) ≠ ERR_OK ∧
     (lwipReceiveCallbackCore ⟨false, [], 0⟩ true (some [[1]]) (-1)).2.2 = -1) ∧
    ((lwipReceiveCallbackCore ⟨false, [], 0⟩ true none 0).2.2 = ERR_ABRT) ∧
    ((lwipReceiveCallbackCore ⟨true, [[5]], 0⟩ true (some [[6]]) 0).1.chain =
      [[5]] ++ [[6]]) :=
  ⟨⟨by decide,
    ((lwip_receive_callback_spec ⟨false, [], 0⟩ true (some [[1]]) (-1)).1
      (by decide)).1⟩,
   ((lwip_receive_callback_spec ⟨false, [], 0⟩ true none 0).2.1 rfl rfl).1,
   (((lwip_receive_callback_spec ⟨true, [[5]], 0⟩ true (some [[6]]) 0).2.2
      [[6]] rfl rfl).2.2.2 (by decide)).1⟩

/-! ## IoRxBuffer consumption lemmas -/

theorem toAck_spec (n : Nat) :
    (IoRxBuffer.toAck n).sum = n ∧
    ∀ a ∈ IoRxBuffer.toAck n, 0 < a ∧ a ≤ 65535 := by
  induction n using Nat.strong_induction_on with
  | _ n ih =>
    match n with
    | 0 => simp [IoRxBuffer.toAck]
    | m + 1 =>
      have hrec := ih (m + 1 - min (m + 1) 65535) (by omega)
      simp only [IoRxBuffer.toAck]
      constructor
      · rw [List.sum_cons, hrec.1]
        omega
      · intro a ha
        rcases List.mem_cons.mp ha with rfl | ha
        · constructor <;> omega
        · exact hrec.2 a ha

theorem bytesAt_zero (c : List (List Nat)) :
    IoRxBuffer.bytesAt c 0 = c.flatten := by
  cases c <;> simp [IoRxBuffer.bytesAt]

theorem bytesOf_nil_of_inv (st : RxState) (hInv : IoRxBuffer.Inv st)
    (hb : IoRxBuffer.bytesOf st = []) : st.chain = [] ∧ st.offset = 0 := by
  obtain ⟨hseg, hemp, hlt⟩ := hInv
  cases hch : st.chain with
  | nil => exact ⟨rfl, hemp hch⟩
  | cons h t =>
    exfalso
    have hlt2 := hlt (by simp [hch])
    rw [IoRxBuffer.headLen, hch] at hlt2
    have hb2 : h.drop st.offset ++ t.flatten = [] := by
      rw [IoRxBuffer.bytesOf, hch] at hb
      exact hb
    have hlen := congrArg List.length hb2
    simp at hlen
    simp at hlt2
    omega

theorem fastPath_spec (pcb : Bool) (h : List Nat) (t : List (List Nat))
    (off n : Nat) (hseg : ∀ s ∈ h :: t, s ≠ []) (hofflt : off < h.length)
    (hn : n ≤ h.length - off) :
    (IoRxBuffer.fastPath ⟨pcb, h :: t, off⟩ n).2 = n ∧
    IoRxBuffer.bytesOf (IoRxBuffer.fastPath ⟨pcb, h :: t, off⟩ n).1 =
      (IoRxBuffer.bytesOf ⟨pcb, h :: t, off⟩).drop n ∧
    (IoRxBuffer.fastPath ⟨pcb, h :: t, off⟩ n).1.pcb = pcb ∧
    IoRxBuffer.Inv (IoRxBuffer.fastPath ⟨pcb, h :: t, off⟩ n).1 := by
  have hbytes : IoRxBuffer.bytesOf ⟨pcb, h :: t, off⟩ = h.drop off ++ t.flatten := rfl
  have hdroplen : (h.drop off).length = h.length - off := List.length_drop _ _
  simp only [IoRxBuffer.fastPath, IoRxBuffer.headLen, IoRxBuffer.free,
    List.headD_cons, List.tail_cons]
  split_ifs with hexact
  · refine ⟨rfl, ?_, rfl, ?_⟩
    · have hL : IoRxBuffer.bytesOf ⟨pcb, t, 0⟩ = t.flatten := bytesAt_zero t
      rw [hL, hbytes]
      have hlendrop : n = (h.drop off).length := by omega
      rw [hlendrop, List.drop_left]
    · refine ⟨?_, ?_, ?_⟩
      · intro s hs
        exact hseg s (List.mem_cons_of_mem _ hs)
      · intro _
        rfl
      · intro htne
        obtain ⟨h2, t2, ht2⟩ : ∃ h2 t2, t = h2 :: t2 := by
          cases hx : t with
          | nil => exact absurd hx (by simpa using htne)
          | cons a b => exact ⟨a, b, rfl⟩
        have hh2 : h2 ≠ [] := hseg h2 (by rw [ht2]; simp)
        subst ht2
        simp only [IoRxBuffer.headLen, List.headD_cons]
        simpa using List.length_pos.mpr hh2
  · have hstrict : off + n < h.length := by omega
    refine ⟨rfl, ?_, rfl, ?_⟩
    · have hL : IoRxBuffer.bytesOf ⟨pcb, h :: t, off + n⟩ =
          h.drop (off + n) ++ t.flatten := rfl
      rw [hL, hbytes]
      rw [List.drop_append_of_le_length (by omega)]
      congr 1
      rw [List.drop_drop]
    · refine ⟨hseg, ?_, ?_⟩
      · intro hx
        simp at hx
      · intro _
        simp only [IoRxBuffer.headLen, List.headD_cons]
        simpa using hstrict

theorem slowPathGo_spec (chain : List (List Nat)) (off rem acc : Nat)
    (hseg : ∀ s ∈ chain, s ≠ [])
    (hofflt : chain ≠ [] → off < (chain.headD []).length)
    (hemp : chain = [] → off = 0) :
    (IoRxBuffer.slowPathGo chain off rem acc).2.2 =
      acc + min rem (IoRxBuffer.bytesAt chain off).length ∧
    IoRxBuffer.bytesAt (IoRxBuffer.slowPathGo chain off rem acc).1
        (IoRxBuffer.slowPathGo chain off rem acc).2.1 =
      (IoRxBuffer.bytesAt chain off).drop
        (min rem (IoRxBuffer.bytesAt chain off).length) ∧
    (∀ s ∈ (IoRxBuffer.slowPathGo chain off rem acc).1, s ∈ chain) ∧
    ((IoRxBuffer.slowPathGo chain off rem acc).1 ≠ [] →
      (IoRxBuffer.slowPathGo chain off rem acc).2.1 <
        ((IoRxBuffer.slowPathGo chain off rem acc).1.headD []).length) ∧
    ((IoRxBuffer.slowPathGo chain off rem acc).1 = [] →
      (IoRxBuffer.slowPathGo chain off rem acc).2.1 = 0) := by
  induction chain generalizing off rem acc with
  | nil =>
    simp only [IoRxBuffer.slowPathGo, IoRxBuffer.bytesAt]
    exact ⟨by simp, by simp, by simp, by simp, fun _ => hemp rfl⟩
  | cons h t ih =>
    have hhead : h ≠ [] := hseg h (List.mem_cons_self _ _)
    have hofflt2 : off < h.length := by simpa using hofflt (by simp)
    have hbytes : IoRxBuffer.bytesAt (h :: t) off = h.drop off ++ t.flatten := rfl
    have hdroplen : (h.drop off).length = h.length - off := List.length_drop _ _
    have hflat : IoRxBuffer.bytesAt t 0 = t.flatten := bytesAt_zero t
    simp only [IoRxBuffer.slowPathGo]
    split_ifs with hr0 hpart
    · subst hr0
      refine ⟨by simp, by simp, by simp, ?_, by simp⟩
      intro _
      simpa using hofflt2
    · -- partial consumption within the head segment
      have hlen : (IoRxBuffer.bytesAt (h :: t) off).length =
          (h.length - off) + t.flatten.length := by
        rw [hbytes]
        simp [hdroplen]
      refine ⟨?_, ?_, by simp, ?_, by simp⟩
      · simp only
        rw [hlen]
        omega
      · simp only
        have hmin : min rem ((IoRxBuffer.bytesAt (h :: t) off).length) = rem := by
          rw [hlen]
          omega
        rw [hmin, hbytes]
        have hgoal : IoRxBuffer.bytesAt (h :: t) (off + rem) =
            h.drop (off + rem) ++ t.flatten := rfl
        rw [hgoal, List.drop_append_of_le_length (by omega)]
        congr 1
        rw [List.drop_drop]
      · intro _
        simp only [List.headD_cons]
        omega
    · -- head segment exhausted: free it and continue on the tail
      have hav : h.length - off ≤ rem := by omega
      have hrec := ih 0 (rem - (h.length - off)) (acc + (h.length - off))
        (fun s hs => hseg s (List.mem_cons_of_mem _ hs))
        (by
          intro htne
          obtain ⟨h2, t2, ht2⟩ : ∃ h2 t2, t = h2 :: t2 := by
            cases hx : t with
            | nil => exact absurd hx htne
            | cons a b => exact ⟨a, b, rfl⟩
          have hh2 : h2 ≠ [] := hseg h2 (by rw [ht2]; simp)
          subst ht2
          simpa using List.length_pos.mpr hh2)
        (fun _ => rfl)
      rw [hflat] at hrec
      have hlen : (IoRxBuffer.bytesAt (h :: t) off).length =
          (h.length - off) + t.flatten.length := by
        rw [hbytes]
        simp [hdroplen]
      have hminsplit : min rem ((IoRxBuffer.bytesAt (h :: t) off).length) =
          (h.length - off) + min (rem - (h.length - off)) t.flatten.length := by
        rw [hlen]
        omega
      refine ⟨?_, ?_, ?_, hrec.2.2.2.1, hrec.2.2.2.2⟩
      · rw [hrec.1, hminsplit]
        omega
      · rw [hrec.2.1, hminsplit, hbytes]
        have hsplit : ((h.drop off) ++ t.flatten).drop
            ((h.length - off) + min (rem - (h.length - off)) t.flatten.length) =
            t.flatten.drop (min (rem - (h.length - off)) t.flatten.length) := by
          have h1 : (h.length - off) + min (rem - (h.length - off)) t.flatten.length =
              (h.drop off).length + min (rem - (h.length - off)) t.flatten.length := by
            omega
          rw [h1, List.drop_append]
        rw [hsplit]
      · intro s hs
        exact List.mem_cons_of_mem _ (hrec.2.2.1 s hs)

theorem consumeCore_spec (st : RxState) (n : Nat) (hInv : IoRxBuffer.Inv st)
    (hch : st.chain ≠ []) :
    (IoRxBuffer.consumeCore st n).2 =
      min n (IoRxBuffer.bytesOf st).length ∧
    IoRxBuffer.bytesOf (IoRxBuffer.consumeCore st n).1 =
      (IoRxBuffer.bytesOf st).drop (min n (IoRxBuffer.bytesOf st).length) ∧
    (IoRxBuffer.consumeCore st n).1.pcb = st.pcb ∧
    IoRxBuffer.Inv (IoRxBuffer.consumeCore st n).1 := by
  obtain ⟨pcb, chain, off⟩ := st
  obtain ⟨hseg, hemp, hlt⟩ := hInv
  obtain ⟨h, t, hc⟩ : ∃ h t, chain = h :: t := by
    cases hx : chain with
    | nil => exact absurd hx (by simpa using hch)
    | cons a b => exact ⟨a, b, rfl⟩
  subst hc
  have hofflt : off < h.length := by
    have := hlt (by simp)
    simpa [IoRxBuffer.headLen] using this
  have hbytes : IoRxBuffer.bytesOf ⟨pcb, h :: t, off⟩ = h.drop off ++ t.flatten := rfl
  have hlen : (IoRxBuffer.bytesOf ⟨pcb, h :: t, off⟩).length =
      (h.length - off) + t.flatten.length := by
    rw [hbytes]
    simp [List.length_drop]
  simp only [IoRxBuffer.consumeCore, IoRxBuffer.headLen, List.headD_cons]
  split_ifs with hfast
  · have hf := fastPath_spec pcb h t off n hseg hofflt (by simpa using hfast)
    have hmin : min n ((IoRxBuffer.bytesOf ⟨pcb, h :: t, off⟩).length) = n := by
      rw [hlen]
      simp only at hfast
      omega
    rw [hmin]
    exact hf
  · have hs := slowPathGo_spec (h :: t) off n 0 hseg
      (by intro _; simpa using hofflt) (by simp)
    simp only [IoRxBuffer.slowPath]
    refine ⟨by simpa using hs.1, by simpa using hs.2.1, by simp, ?_⟩
    refine ⟨?_, ?_, ?_⟩
    · intro s hsm
      exact hseg s (hs.2.2.1 s hsm)
    · intro hx
      exact hs.2.2.2.2 hx
    · intro hx
      simpa [IoRxBuffer.headLen] using hs.2.2.2.1 hx

theorem peekConsume_spec (st : RxState) (n : Nat) (hInv : IoRxBuffer.Inv st) :
    (IoRxBuffer.peekConsume st n).1.pcb = st.pcb ∧
    IoRxBuffer.Inv (IoRxBuffer.peekConsume st n).1 ∧
    IoRxBuffer.bytesOf (IoRxBuffer.peekConsume st n).1 =
      (IoRxBuffer.bytesOf st).drop (min n (IoRxBuffer.bytesOf st).length) ∧
    (∀ a ∈ (IoRxBuffer.peekConsume st n).2, 0 < a ∧ a ≤ 65535) ∧
    (st.pcb = true → (IoRxBuffer.peekConsume st n).2.sum =
      min n (IoRxBuffer.bytesOf st).length) := by
  simp only [IoRxBuffer.peekConsume]
  split_ifs with hguard hif
  · rcases hguard with hn0 | hempty
    · subst hn0
      simp [hInv]
    · have hch : st.chain = [] := List.isEmpty_iff.mp hempty
      have hb : IoRxBuffer.bytesOf st = [] := by
        rw [IoRxBuffer.bytesOf, hch]
        rfl
      simp [hInv, hb]
  · have hch : st.chain ≠ [] := by
      intro hx
      exact hguard (Or.inr (List.isEmpty_iff.mpr hx))
    have hc := consumeCore_spec st n hInv hch
    refine ⟨hc.2.2.1, hc.2.2.2, hc.2.1, ?_, ?_⟩
    · intro a ha
      exact (toAck_spec _).2 a ha
    · intro _
      show (IoRxBuffer.toAck (IoRxBuffer.consumeCore st n).2).sum = _
      rw [(toAck_spec _).1, hc.1]
  · have hch : st.chain ≠ [] := by
      intro hx
      exact hguard (Or.inr (List.isEmpty_iff.mpr hx))
    have hc := consumeCore_spec st n hInv hch
    refine ⟨hc.2.2.1, hc.2.2.2, hc.2.1, by simp, ?_⟩
    intro hpcb
    show ([] : List Nat).sum = _
    rw [hc.2.2.1, hpcb] at hif
    simp only [List.sum_nil]
    simp at hif
    rw [hc.1] at hif
    omega

theorem runConsumes_spec (parts : List Nat) (st : RxState)
    (hInv : IoRxBuffer.Inv st) (hpcb : st.pcb = true)
    (hsum : parts.sum = (IoRxBuffer.bytesOf st).length) :
    (runConsumes st parts).2.2 = IoRxBuffer.bytesOf st ∧
    (runConsumes st parts).1.chain = [] ∧
    (runConsumes st parts).1.offset = 0 ∧
    (runConsumes st parts).2.1.sum = (IoRxBuffer.bytesOf st).length := by
  induction parts generalizing st with
  | nil =>
    have hb : IoRxBuffer.bytesOf st = [] := by
      have h0 : (IoRxBuffer.bytesOf st).length = 0 := by
        simpa using hsum.symm
      exact List.eq_nil_of_length_eq_zero h0
    have hempty := bytesOf_nil_of_inv st hInv hb
    simp [runConsumes, hb, hempty.1, hempty.2]
  | cons n ns ih =>
    have hp := peekConsume_spec st n hInv
    have hnle : n ≤ (IoRxBuffer.bytesOf st).length := by
      simp [List.sum_cons] at hsum
      omega
    have hmin : min n (IoRxBuffer.bytesOf st).length = n := by omega
    have hb1 : IoRxBuffer.bytesOf (IoRxBuffer.peekConsume st n).1 =
        (IoRxBuffer.bytesOf st).drop n := by
      rw [hp.2.2.1, hmin]
    have hsum1 : ns.sum =
        (IoRxBuffer.bytesOf (IoRxBuffer.peekConsume st n).1).length := by
      rw [hb1, List.length_drop]
      simp [List.sum_cons] at hsum
      omega
    have hih := ih (IoRxBuffer.peekConsume st n).1 hp.2.1
      (by rw [hp.1, hpcb]) hsum1
    simp only [runConsumes]
    refine ⟨?_, hih.2.1, hih.2.2.1, ?_⟩
    · rw [hih.1, hb1]
      exact List.take_append_drop n (IoRxBuffer.bytesOf st)
    · rw [List.sum_append, hih.2.2.2, hb1, List.length_drop,
        hp.2.2.2.2 hpcb, hmin]
      omega

/-- Claim C5: a chain of (non-empty) segments totalling S bytes, consumed in
arbitrary positive splits summing to S, surrenders exactly the S original
bytes in order, leaves the buffer empty (`head == null`, `offset == 0`),
and acknowledges exactly S bytes to the stack; moreover the peek interface
exposes exactly the next unconsumed bytes (`peek` returns the byte at the
cursor, `peekBuffer` the readable prefix of the stream of length
`peekAvailable`). -/
theorem rx_consume_roundtrip (segs : List (List Nat)) (parts : List Nat)
    (hseg : ∀ s ∈ segs, s ≠ []) (hpos : ∀ p ∈ parts, 0 < p)
    (hsum : parts.sum = segs.flatten.length) :
    ((runConsumes ⟨true, segs, 0⟩ parts).2.2 = segs.flatten ∧
     (runConsumes ⟨true, segs, 0⟩ parts).1.chain = [] ∧
     (runConsumes ⟨true, segs, 0⟩ parts).1.offset = 0 ∧
     (runConsumes ⟨true, segs, 0⟩ parts).2.1.sum = segs.flatten.length) ∧
    (∀ s : RxState, IoRxBuffer.Inv s →
      IoRxBuffer.peek s = (IoRxBuffer.bytesOf s).headD 0 ∧
      (s.chain ≠ [] → IoRxBuffer.peekBuffer s =
        some ((IoRxBuffer.bytesOf s).take (IoRxBuffer.peekAvailable s)))) := by
  constructor
  · have hInv : IoRxBuffer.Inv (⟨true, segs, 0⟩ : RxState) := by
      refine ⟨hseg, fun _ => rfl, ?_⟩
      intro hne
      obtain ⟨h, t, hc⟩ : ∃ h t, segs = h :: t := by
        cases hx : segs with
        | nil => exact absurd hx (by simpa using hne)
        | cons a b => exact ⟨a, b, rfl⟩
      subst hc
      have hh : h ≠ [] := hseg h (List.mem_cons_self _ _)
      simp only [IoRxBuffer.headLen, List.headD_cons]
      simpa using List.length_pos.mpr hh
    have hb : IoRxBuffer.bytesOf ⟨true, segs, 0⟩ = segs.flatten := bytesAt_zero segs
    have hr := runConsumes_spec parts ⟨true, segs, 0⟩ hInv rfl (by rw [hb]; exact hsum)
    rw [hb] at hr
    exact hr
  · intro s hInv
    obtain ⟨hsg, hemp, hlt⟩ := hInv
    cases hc : s.chain with
    | nil =>
      constructor
      · rw [IoRxBuffer.peek, IoRxBuffer.bytesOf, hc]
        rfl
      · intro hne
        exact absurd rfl hne
    | cons h t =>
      have hofflt : s.offset < h.length := by
        have := hlt (by simp [hc])
        rw [IoRxBuffer.headLen, hc] at this
        simpa using this
      have hbytes : IoRxBuffer.bytesOf s = h.drop s.offset ++ t.flatten := by
        rw [IoRxBuffer.bytesOf, hc]
        rfl
      have hdrlen : (h.drop s.offset).length = h.length - s.offset :=
        List.length_drop _ _
      obtain ⟨x, xs, hx⟩ : ∃ x xs, h.drop s.offset = x :: xs := by
        cases hy : h.drop s.offset with
        | nil =>
          exfalso
          have := congrArg List.length hy
          simp at this
          omega
        | cons a b => exact ⟨a, b, rfl⟩
      constructor
      · rw [IoRxBuffer.peek, hc, hbytes, hx]
        simp only [List.cons_append, List.headD_cons]
        have hget : h[s.offset]? = some x := by
          rw [← List.head?_drop, hx]
          rfl
        simp [List.getD_eq_getElem?_getD, hget]
      · intro _
        rw [IoRxBuffer.peekBuffer, hc]
        rw [IoRxBuffer.peekAvailable, hc, hbytes]
        simp only
        congr 1
        exact (List.take_left' hdrlen).symm

/-- Witness for C5: segments [1,2] and [3,4,5] consumed as 2 then 3. -/
theorem rx_consume_roundtrip_witness :
    ((∀ s ∈ ([[1, 2], [3, 4, 5]] : List (List Nat)), s ≠ []) ∧
     (∀ p ∈ ([2, 3] : List Nat), 0 < p) ∧
     ([2, 3] : List Nat).sum = ([[1, 2], [3, 4, 5]] : List (List Nat)).flatten.length) ∧
    ((runConsumes ⟨true, [[1, 2], [3, 4, 5]], 0⟩ [2, 3]).2.2 =
        ([[1, 2], [3, 4, 5]] : List (List Nat)).flatten ∧
     (runConsumes ⟨true, [[1, 2], [3, 4, 5]], 0⟩ [2, 3]).1.chain = [] ∧
     (runConsumes ⟨true, [[1, 2], [3, 4, 5]], 0⟩ [2, 3]).1.offset = 0 ∧
     (runConsumes ⟨true, [[1, 2], [3, 4, 5]], 0⟩ [2, 3]).2.1.sum =
        ([[1, 2], [3, 4, 5]] : List (List Nat)).flatten.length) :=
  ⟨⟨by decide, by decide, by decide⟩,
   (rx_consume_roundtrip [[1, 2], [3, 4, 5]] [2, 3]
     (by decide) (by decide) (by decide)).1⟩

/-- Counterexample to claim C6 as stated: consuming 5 bytes from a buffer
holding only 2 issues a single `tcp_recved(2)`; the notification arguments
sum to the consumed count 2, not to the requested n = 5. -/
theorem peekConsume_ack_not_request :
    (IoRxBuffer.peekConsume ⟨true, [[7, 8]], 0⟩ 5).2 = [2] ∧
    ([2] : List Nat).sum ≠ 5 := by
  constructor
  · have h2 : IoRxBuffer.toAck 2 = [2] := by
      rw [IoRxBuffer.toAck]
      norm_num
      rw [IoRxBuffer.toAck]
    simp [IoRxBuffer.peekConsume, IoRxBuffer.consumeCore, IoRxBuffer.headLen,
      IoRxBuffer.slowPath, IoRxBuffer.slowPathGo, h2]
  · decide

/-- Claim C6 (amended): each flow-control notification issued by
`peekConsume(n)` carries at most 65535 bytes (and at least 1), and the
notification arguments sum to the number of bytes actually consumed, namely
`min(n, unconsumed bytes in the chain)`; when the request does not exceed
the buffered bytes this sum is exactly `n`. -/
theorem peekConsume_ack_chunks (st : RxState) (n : Nat)
    (hInv : IoRxBuffer.Inv st) (hpcb : st.pcb = true) (hn : 0 < n)
    (hch : st.chain ≠ []) :
    (∀ a ∈ (IoRxBuffer.peekConsume st n).2, 0 < a ∧ a ≤ 65535) ∧
    (IoRxBuffer.peekConsume st n).2.sum =
      min n (IoRxBuffer.bytesOf st).length ∧
    (n ≤ (IoRxBuffer.bytesOf st).length →
      (IoRxBuffer.peekConsume st n).2.sum = n) := by
  have hp := peekConsume_spec st n hInv
  refine ⟨hp.2.2.2.1, hp.2.2.2.2 hpcb, ?_⟩
  intro hle
  rw [hp.2.2.2.2 hpcb]
  omega

/-- Witness for the amended C6: consuming 2 bytes of a 3-byte buffer. -/
theorem peekConsume_ack_chunks_witness :
    (IoRxBuffer.Inv ⟨true, [[7, 8], [9]], 0⟩ ∧ (0 : Nat) < 2 ∧
      (⟨true, [[7, 8], [9]], 0⟩ : RxState).chain ≠ []) ∧
    ((∀ a ∈ (IoRxBuffer.peekConsume ⟨true, [[7, 8], [9]], 0⟩ 2).2,
        0 < a ∧ a ≤ 65535) ∧
     (IoRxBuffer.peekConsume ⟨true, [[7, 8], [9]], 0⟩ 2).2.sum =
        min 2 (IoRxBuffer.bytesOf ⟨true, [[7, 8], [9]], 0⟩).length ∧
     (2 ≤ (IoRxBuffer.bytesOf ⟨true, [[7, 8], [9]], 0⟩).length →
        (IoRxBuffer.peekConsume ⟨true, [[7, 8], [9]], 0⟩ 2).2.sum = 2)) :=
  ⟨⟨by decide, by decide, by decide⟩,
   peekConsume_ack_chunks ⟨true, [[7, 8], [9]], 0⟩ 2
     (by decide) rfl (by decide) (by decide)⟩

/-- Claim C10: the read-only observers `peek`, `peekAvailable` and
`peekBuffer` leave the buffer state (head chain, cursor offset, pcb
pointer) unchanged, issue no flow-control notification, and return the
values determined by the cursor. -/
theorem rx_peek_observers_pure (st : RxState) :
    (IoRxBuffer.peekM st).2.1 = st ∧ (IoRxBuffer.peekM st).2.2 = [] ∧
    (IoRxBuffer.peekAvailableM st).2.1 = st ∧
    (IoRxBuffer.peekAvailableM st).2.2 = [] ∧
    (IoRxBuffer.peekBufferM st).2.1 = st ∧
    (IoRxBuffer.peekBufferM st).2.2 = [] ∧
    (IoRxBuffer.peekM st).1 = IoRxBuffer.peek st ∧
    (IoRxBuffer.peekAvailableM st).1 = IoRxBuffer.peekAvailable st ∧
    (IoRxBuffer.peekBufferM st).1 = IoRxBuffer.peekBuffer st := by
  obtain ⟨pcb, chain, off⟩ := st
  cases chain <;>
    simp [IoRxBuffer.peekM, IoRxBuffer.peekAvailableM, IoRxBuffer.peekBufferM,
      IoRxBuffer.peek, IoRxBuffer.peekAvailable, IoRxBuffer.peekBuffer,
      IoRxBuffer.headLen]

/-! ## TcpClientContext close (claim C7) -/

/-- Counterexample to claim C7 as stated: a context with a pending RX chain
closes successfully, yet the chain is still held afterwards — `close()`
performs no RX release (that is `discard_received()`, a separate routine). -/
theorem close_keeps_rx_chain :
    (TcpClientContext.close ⟨true, [[1]]⟩ 0).1.rxChain = [[1]] ∧
    CcEvent.rxChainFreed ∉ (TcpClientContext.close ⟨true, [[1]]⟩ 0).2.1 ∧
    (TcpClientContext.close ⟨true, [[1]]⟩ 0).1.pcb = false := by
  refine ⟨by decide, by decide, by decide⟩

/-- Claim C7 (amended): for a context with a non-null PCB, `close()`
deregisters the stack callbacks and issues the stack close, falls back to
`tcp_abort` and returns `ERR_ABRT` when `tcp_close` fails, returns `ERR_OK`
when it succeeds, and nulls the PCB pointer; the pending RX chain is left
untouched (its release is `discard_received()`, which `unref()` runs before
`close()`). -/
theorem close_spec (st : CcState) (closeErr : Int) (hpcb : st.pcb = true) :
    CcEvent.tcpCloseCalled ∈ (TcpClientContext.close st closeErr).2.1 ∧
    CcEvent.callbacksCleared ∈ (TcpClientContext.close st closeErr).2.1 ∧
    (TcpClientContext.close st closeErr).1.pcb = false ∧
    (TcpClientContext.close st closeErr).1.rxChain = st.rxChain ∧
    (closeErr ≠ ERR_OK →
      (TcpClientContext.close st closeErr).2.2 = ERR_ABRT ∧
      CcEvent.tcpAbortCalled ∈ (TcpClientContext.close st closeErr).2.1) ∧
    (closeErr = ERR_OK →
      (TcpClientContext.close st closeErr).2.2 = ERR_OK ∧
      CcEvent.tcpAbortCalled ∉ (TcpClientContext.close st closeErr).2.1) := by
  simp only [TcpClientContext.close, hpcb, if_true]
  split_ifs with herr
  · exact ⟨by simp, by simp, rfl, rfl, fun _ => ⟨rfl, by simp⟩,
      fun h => absurd h herr⟩
  · exact ⟨by simp, by simp, rfl, rfl, fun h => absurd h (by simpa using herr),
      fun _ => ⟨rfl, by simp⟩⟩

/-- Witness for the amended C7 at a concrete context and both close
results. -/
theorem close_spec_witness :
    ((⟨true, [[1]]⟩ : CcState).pcb = true ∧
     (TcpClientContext.close ⟨true, [[1]]⟩ 0).1.rxChain = [[1]] ∧
     (TcpClientContext.close ⟨true, [[1]]⟩ (-1)).2.2 = ERR_ABRT) :=
  ⟨rfl,
   (close_spec ⟨true, [[1]]⟩ 0 rfl).2.2.2.1,
   ((close_spec ⟨true, [[1]]⟩ (-1) rfl).2.2.2.2.1 (by decide)).1⟩

/-! ## SyncBridge execute (claim C8) -/

/-- Counterexample to claim C8 as stated: `execute` on a bridge whose state
does not reflect the constructor's mutex initialization still dispatches
the payload to the target context and returns the handler's result (42
here), instead of returning an invalid-state error without dispatching. -/
theorem syncBridge_execute_no_init_check :
    SbEvent.dispatched ∈
      (SyncBridge.execute ⟨false⟩ (fun _ : Unit => 42) ()).2 ∧
    (SyncBridge.execute ⟨false⟩ (fun _ : Unit => 42) ()).1 = 42 :=
  ⟨by decide, rfl⟩

/-- Claim C8 (amended): `SyncBridge::execute` performs no initialization
check — for every bridge state it acquires the per-instance mutex, adds and
marks the one-shot worker, dispatches the payload in the target context,
and returns the handler's result; its behaviour does not depend on the
initialization flag (construction itself initializes the mutex, so no
separate invalid-state path exists). -/
theorem syncBridge_execute_spec {α : Type} (st : SyncBridgeState)
    (onExecute : α → Nat) (payload : α) :
    (SyncBridge.execute st onExecute payload).1 = onExecute payload ∧
    SbEvent.dispatched ∈ (SyncBridge.execute st onExecute payload).2 ∧
    SyncBridge.execute st onExecute payload =
      SyncBridge.execute ⟨true⟩ onExecute payload :=
  ⟨rfl, by simp [SyncBridge.execute], rfl⟩

/-! ## Null-arg behaviour of the registered stack callbacks (claim C9) -/

/-- Counterexample to claim C9 as stated: the receive callback registered
with `tcp_recv` is `lwip_receive_callback`, whose first act on a null `arg`
is a failing `assert` — it does not return the stack's ok sentinel. -/
theorem recv_trampoline_null_arg_asserts :
    (Trampolines.recvTrampoline none true (some [[1]]) 0).2.2 =
      CbOut.assertFailed ∧
    CbOut.assertFailed ≠ CbOut.ret ERR_OK :=
  ⟨rfl, by decide⟩

/-- Claim C9 (amended): among the five per-PCB stack callbacks, the
connected, sent, error and poll trampolines validate `arg` first and, when
it is null, perform no action and return `ERR_OK` (the error trampoline
returns void); the receive slot, registered to `lwip_receive_callback`,
instead asserts `arg` non-null and has no ok-return path for a null
`arg`. -/
theorem trampolines_null_arg_spec (err : Int) (len : Nat) (tpcb : Bool)
    (p : Option (List (List Nat))) :
    Trampolines.sConnected none err = (none, [], CbOut.ret ERR_OK) ∧
    Trampolines.sAcked none len = (none, [], CbOut.ret ERR_OK) ∧
    Trampolines.sError none err = (none, [], CbOut.retVoid) ∧
    Trampolines.sPoll none = (none, [], CbOut.ret ERR_OK) ∧
    Trampolines.recvTrampoline none tpcb p err =
      (none, [], CbOut.assertFailed) :=
  ⟨rfl, rfl, rfl, rfl, rfl⟩

end AsyncTcp
